import Mathlib

/-!
Shallow embedding of `ethdb/badger.go` (the Badger-backed key-value store
adapter of this repository): the `BadgerDatabase` CRUD surface, the
`badgerBatch` write batch, the `badgerIterator` cursor, the `table` /
`tableBatch` namespacing decorators, and the garbage-collection scheduler
constants and sequencing.

The Badger engine and the snappy codec are external collaborators of the
repository.  The engine is modelled as an association list from keys to the
raw (encoded) bytes stored for them, with transactional `Set` allowed to
fail (Badger's `txn.Set` can return errors such as `ErrTxnTooBig`); the
failure behaviour is a parameter `fail`.  The snappy codec is modelled as
any `Codec`: a pair of total `encode` and fallible `decode` functions
satisfying the library's round-trip contract `decode (encode v) = some v`.
-/

set_option autoImplicit false

namespace EthdbBadger

/-- Byte strings: keys and values are opaque byte sequences. -/
abbrev Bytes := List Nat

/-- Errors surfaced by the modelled operations. `keyNotFound` stands for
`badger.ErrKeyNotFound`, `corrupt` for a snappy decode failure, `setFailed`
for an engine `txn.Set` error, `engineFailure` for any other engine error. -/
inductive Err where
  | keyNotFound
  | corrupt
  | setFailed
  | engineFailure
  deriving DecidableEq, Repr

/-- The value codec (the external snappy library): `encode` is total,
`decode` is fallible, and decoding an encoded value recovers it exactly
(the documented snappy contract `Decode (Encode v) = v`). -/
structure Codec where
  encode : Bytes → Bytes
  decode : Bytes → Option Bytes
  roundtrip : ∀ v, decode (encode v) = some v

/-- A concrete codec instance (prefix each value with a tag byte) used to
evaluate the theorems on closed inputs. -/
def tagCodec : Codec where
  encode v := 0 :: v
  decode w := match w with
    | 0 :: v => some v
    | _ => none
  roundtrip _ := rfl

/-- The engine's committed key-value state: an association list from keys
to the raw bytes stored for them, with at most one entry per key. -/
abbrev Store := List (Bytes × Bytes)

/-- Engine point read (`txn.Get`): the raw bytes stored at `k`, if any. -/
def storeGet : Store → Bytes → Option Bytes
  | [], _ => none
  | (k', v) :: rest, k => if k' = k then some v else storeGet rest k

/-- Engine delete: remove every entry for `k`. -/
def storeDelete : Store → Bytes → Store
  | [], _ => []
  | (k', v) :: rest, k =>
    if k' = k then storeDelete rest k else (k', v) :: storeDelete rest k

/-- Engine write (a successful `txn.Set`): bind `k` to `v`, replacing any
previous binding. -/
def storeSet (st : Store) (k v : Bytes) : Store :=
  (k, v) :: storeDelete st k

/-- Model of `BadgerDatabase.Put`: inside one update transaction,
snappy-encode the value and `txn.Set` it.  `fail k ev` says whether the
engine rejects the set of encoded value `ev` at key `k`; on failure the
transaction aborts and the store is unchanged. -/
def dbPut (C : Codec) (fail : Bytes → Bytes → Bool) (st : Store) (k v : Bytes) :
    Store × Option Err :=
  let ev := C.encode v
  if fail k ev then (st, some .setFailed)
  else (storeSet st k ev, none)

/-- Model of `BadgerDatabase.Get`: inside one view transaction, `txn.Get`
the raw bytes (an absent key is `badger.ErrKeyNotFound`, passed through),
then snappy-decode them (failure is surfaced); on any error the outer code
returns `nil` for the value. -/
def dbGet (C : Codec) (st : Store) (k : Bytes) : Option Bytes × Option Err :=
  let inner : Except Err Bytes :=
    match storeGet st k with
    | none => .error .keyNotFound
    | some raw =>
      match C.decode raw with
      | none => .error .corrupt
      | some v => .ok v
  match inner with
  | .error e => (none, some e)
  | .ok v => (some v, none)

/-- Model of `BadgerDatabase.Has`: `txn.Get` the key; a non-nil item sets
the result true; `badger.ErrKeyNotFound` is normalized to `(false, nil)`. -/
def dbHas (st : Store) (k : Bytes) : Bool × Option Err :=
  match storeGet st k with
  | some _ => (true, none)
  | none => (false, none)

/-- Engine `txn.Delete` as seen by the adapter: may report
`ErrKeyNotFound` for an absent key; deleting a present key removes it. -/
def txnDelete (st : Store) (k : Bytes) : Store × Option Err :=
  match storeGet st k with
  | none => (st, some .keyNotFound)
  | some _ => (storeDelete st k, none)

/-- Model of `BadgerDatabase.Delete`: inside one update transaction,
`txn.Delete` the key and normalize `ErrKeyNotFound` to success; the
transaction commits iff the callback returns no error. -/
def dbDelete (st : Store) (k : Bytes) : Store × Option Err :=
  let r := txnDelete st k
  let err := if r.2 = some Err.keyNotFound then none else r.2
  (if err = none then r.1 else st, err)

/-- The accumulator of `badgerBatch`: the pending key-value map `b`
(a Go map, modelled as an association list with at most one entry per key)
and the running value-byte counter `size`. -/
structure BadgerBatch where
  b : List (Bytes × Bytes)
  size : Nat
  deriving DecidableEq, Repr

/-- Model of `BadgerDatabase.NewBatch`: an empty accumulator. -/
def newBatch : BadgerBatch := ⟨[], 0⟩

/-- Model of `badgerBatch.Put`: store a copy of the value under the key
(overwriting a previous pending value for the same key) and add
`len(value)` to the size counter. -/
def batchPut (bt : BadgerBatch) (k v : Bytes) : BadgerBatch :=
  ⟨storeSet bt.b k v, bt.size + v.length⟩

/-- The loop body of the `badgerBatch.Write` transaction callback, exactly
as written in the source: for each pending entry, snappy-encode the value
and run `err = txn.Set(key, value)` — the shared `err` variable is
overwritten on every iteration and the loop never breaks, so only the last
iteration's error survives.  A failed set leaves the pending transaction
state unchanged; a successful one adds the write. -/
def batchWriteLoop (C : Codec) (fail : Bytes → Bytes → Bool) :
    List (Bytes × Bytes) → Store → Option Err → Store × Option Err
  | [], st, err => (st, err)
  | (k, v) :: rest, st, _ =>
    let ev := C.encode v
    if fail k ev then batchWriteLoop C fail rest st (some .setFailed)
    else batchWriteLoop C fail rest (storeSet st k ev) none

/-- Model of `badgerBatch.Write`: run the loop inside one `db.Update`
transaction (commit iff the callback's final `err` is nil), then
unconditionally reset the accumulator and the size counter, returning the
callback's error. -/
def batchWrite (C : Codec) (fail : Bytes → Bytes → Bool)
    (bt : BadgerBatch) (engine : Store) : Store × BadgerBatch × Option Err :=
  let r := batchWriteLoop C fail bt.b engine none
  ((if r.2 = none then r.1 else engine), ⟨[], 0⟩, r.2)

/-- Model of `badgerBatch.ValueSize`. -/
def batchValueSize (bt : BadgerBatch) : Nat := bt.size

/-- Model of `badgerBatch.Reset` (and the equivalent `Discard`). -/
def batchReset (_bt : BadgerBatch) : BadgerBatch := ⟨[], 0⟩

/-- Model of `badgerIterator`: the engine iterator is modelled by the
snapshot's entry list in the engine's iteration order together with a
position; the adapter adds the `initialised` and `released` flags of the
source. -/
structure BadgerIterator where
  entries : List (Bytes × Bytes)
  pos : Nat
  initialised : Bool
  released : Bool
  deriving DecidableEq, Repr

/-- Model of `BadgerDatabase.NewIterator`: a fresh read-transaction
snapshot, not yet rewound.  `snapshot` is the entry list the engine's
iterator will yield, in its iteration order. -/
def newIterator (snapshot : List (Bytes × Bytes)) : BadgerIterator :=
  ⟨snapshot, 0, false, false⟩

/-- Engine iterator validity: the position is within the snapshot. -/
def iterValid (it : BadgerIterator) : Bool :=
  it.pos < it.entries.length

/-- Model of `badgerIterator.Next`: on the first call rewind (position 0)
and set `initialised`; afterwards advance one position; return the engine
iterator's validity. -/
def iterNext (it : BadgerIterator) : Bool × BadgerIterator :=
  if !it.initialised then
    let it' := { it with pos := 0, initialised := true }
    (iterValid it', it')
  else
    let it' := { it with pos := it.pos + 1 }
    (iterValid it', it')

/-- Model of `badgerIterator.Key`: the current item's key (nil when
invalid). -/
def iterKey (it : BadgerIterator) : Option Bytes :=
  (it.entries.get? it.pos).map Prod.fst

/-- Model of `badgerIterator.Value`: the current item's raw engine bytes,
with no codec applied (nil on an internal read fault / when invalid). -/
def iterValue (it : BadgerIterator) : Option Bytes :=
  (it.entries.get? it.pos).map Prod.snd

/-- Lexicographic byte order — the order in which the Badger engine
iterates keys. -/
def bytesLe : Bytes → Bytes → Bool
  | [], _ => true
  | _ :: _, [] => false
  | a :: as, b :: bs =>
    if a < b then true else if b < a then false else bytesLe as bs

/-- A snapshot is in engine iteration order when its keys are sorted by
`bytesLe`. -/
def SnapshotSorted (entries : List (Bytes × Bytes)) : Prop :=
  entries.Pairwise (fun e f => bytesLe e.1 f.1)

/-- Model of `table.Put`: the namespacing decorator holds the underlying
store and an immutable prefix; every key-taking method rewrites `key` to
`prefix ++ key` before delegating.  Here the underlying `Database` is the
modelled `BadgerDatabase`. -/
def tablePut (C : Codec) (fail : Bytes → Bytes → Bool) (pre : Bytes)
    (st : Store) (k v : Bytes) : Store × Option Err :=
  dbPut C fail st (pre ++ k) v

/-- Model of `table.Has`. -/
def tableHas (pre : Bytes) (st : Store) (k : Bytes) : Bool × Option Err :=
  dbHas st (pre ++ k)

/-- Model of `table.Get`. -/
def tableGet (C : Codec) (pre : Bytes) (st : Store) (k : Bytes) :
    Option Bytes × Option Err :=
  dbGet C st (pre ++ k)

/-- Model of `table.Delete`. -/
def tableDelete (pre : Bytes) (st : Store) (k : Bytes) : Store × Option Err :=
  dbDelete st (pre ++ k)

/-- Model of `tableBatch.Put`: prefix the key, then delegate to the
underlying batch's `Put`. -/
def tableBatchPut (pre : Bytes) (bt : BadgerBatch) (k v : Bytes) : BadgerBatch :=
  batchPut bt (pre ++ k) v

/-- Model of `table.NewBatch` followed by a sequence of puts: the
underlying store's fresh batch, with `tableBatch.Put` folded over the
key-value pairs. -/
def tableBatchPuts (pre : Bytes) (kvs : List (Bytes × Bytes)) : BadgerBatch :=
  kvs.foldl (fun bt kv => tableBatchPut pre bt kv.1 kv.2) newBatch

/-- Accumulating the same pairs, with the prefix applied by hand, through
the raw store's batch. -/
def rawBatchPuts (kvs : List (Bytes × Bytes)) : BadgerBatch :=
  kvs.foldl (fun bt kv => batchPut bt kv.1 kv.2) newBatch

/-- Model of `tableBatch.Write`: it just delegates to the underlying
batch's `Write`. -/
def tableBatchWrite (C : Codec) (fail : Bytes → Bytes → Bool)
    (bt : BadgerBatch) (engine : Store) : Store × BadgerBatch × Option Err :=
  batchWrite C fail bt engine

/-- One Go `time.Duration` tick is a nanosecond. -/
def nanosecond : Nat := 1

/-- Go's `time.Second` in nanoseconds. -/
def second : Nat := 1000000000 * nanosecond

/-- Go's `time.Minute` in nanoseconds. -/
def minute : Nat := 60 * second

/-- The `cgInterval` constant of the source: `10 * time.Minute`. -/
def cgInterval : Nat := 10 * minute

/-- The `discardRatio` constant of the source, passed to `RunValueLogGC`. -/
def discardRatio : ℚ := 1 / 2

/-- The engine maintenance operations a reclaim cycle can invoke. -/
inductive MaintOp where
  | purgeOlderVersions
  | runValueLogGC (ratio : ℚ)
  deriving DecidableEq, Repr

/-- Model of `BadgerDatabase.collectGarbage`: run `PurgeOlderVersions`; if
it fails return its error (without running GC); otherwise return the
result of `RunValueLogGC discardRatio`.  The engine's results are the
parameters `purgeErr` and `gcErr`; the returned list is the trace of
maintenance operations invoked, in order. -/
def collectGarbage (purgeErr : Option Err) (gcErr : ℚ → Option Err) :
    Option Err × List MaintOp :=
  match purgeErr with
  | some e => (some e, [.purgeOlderVersions])
  | none => (gcErr discardRatio, [.purgeOlderVersions, .runValueLogGC discardRatio])

/-- What the `runGC` loop body logs on one tick. -/
inductive GCLog where
  | collected
  | failed (e : Err)
  deriving DecidableEq, Repr

/-- One tick of the `runGC` loop: call `collectGarbage` once, log success
or failure, and return nothing to any caller (the error is consumed by the
log).  The trace of engine maintenance operations of the tick is returned
for inspection. -/
def runGCTick (purgeErr : Option Err) (gcErr : ℚ → Option Err) :
    GCLog × List MaintOp :=
  let r := collectGarbage purgeErr gcErr
  (match r.1 with
   | none => .collected
   | some e => .failed e, r.2)

/-! Helper lemmas about the engine-state model. -/

theorem storeGet_storeDelete_self (st : Store) (k : Bytes) :
    storeGet (storeDelete st k) k = none := by
  induction st with
  | nil => rfl
  | cons hd tl ih =>
    obtain ⟨k', v⟩ := hd
    by_cases h : k' = k
    · simpa [storeDelete, h] using ih
    · simpa [storeDelete, storeGet, h] using ih

theorem storeGet_storeSet_self (st : Store) (k v : Bytes) :
    storeGet (storeSet st k v) k = some v := by
  simp [storeSet, storeGet]

theorem key_ne_of_mem_storeDelete (st : Store) (k : Bytes) :
    ∀ e ∈ storeDelete st k, e.1 ≠ k := by
  induction st with
  | nil => intro e he; simp [storeDelete] at he
  | cons hd tl ih =>
    obtain ⟨k', v⟩ := hd
    intro e he
    by_cases h : k' = k
    · exact ih e (by simpa [storeDelete, h] using he)
    · rw [storeDelete] at he
      simp only [if_neg h, List.mem_cons] at he
      rcases he with rfl | he
      · exact h
      · exact ih e he

theorem value_eq_of_mem_storeSet (st : Store) (k v : Bytes) :
    ∀ e ∈ storeSet st k v, e.1 = k → e.2 = v := by
  intro e he hk
  rw [storeSet, List.mem_cons] at he
  rcases he with rfl | he
  · rfl
  · exact absurd hk (key_ne_of_mem_storeDelete st k e he)

theorem bytesLe_refl (a : Bytes) : bytesLe a a = true := by
  induction a with
  | nil => rfl
  | cons x xs ih => simp [bytesLe, ih]

/-! The claims. -/

/-- C2: after a successful `Put(k, v)`, the engine holds the
snappy-encoded form of `v` at `k`, and `Get(k)` succeeds and returns a
value byte-for-byte equal to `v` — the whole-store round-trip, including
compression, is the identity on values. -/
theorem put_get_roundtrip (C : Codec) (fail : Bytes → Bytes → Bool)
    (st : Store) (k v : Bytes) (h : (dbPut C fail st k v).2 = none) :
    storeGet (dbPut C fail st k v).1 k = some (C.encode v) ∧
    dbGet C (dbPut C fail st k v).1 k = (some v, none) := by
  by_cases hf : fail k (C.encode v)
  · simp [dbPut, hf] at h
  · refine ⟨?_, ?_⟩
    · simp [dbPut, hf, storeGet_storeSet_self]
    · simp [dbPut, hf, dbGet, storeGet_storeSet_self, C.roundtrip]

/-- Closed-input witness for `put_get_roundtrip`. -/
theorem put_get_roundtrip_witness :
    (dbPut tagCodec (fun _ _ => false) [] [1] [2]).2 = none ∧
    dbGet tagCodec (dbPut tagCodec (fun _ _ => false) [] [1] [2]).1 [1]
      = (some [2], none) :=
  ⟨rfl, (put_get_roundtrip tagCodec (fun _ _ => false) [] [1] [2] rfl).2⟩

/-- C10: whenever `Get(k)` returns a non-nil error — key absent, engine
read fault, or snappy-decode failure — the returned value is nil; `Get`
never returns a partial value alongside an error. -/
theorem get_error_nil_value (C : Codec) (st : Store) (k : Bytes)
    (h : (dbGet C st k).2 ≠ none) : (dbGet C st k).1 = none := by
  rw [dbGet] at *
  cases hg : storeGet st k with
  | none => simp [hg]
  | some raw =>
    cases hd : C.decode raw with
    | none => simp [hg, hd]
    | some v => simp [hg, hd] at h

/-- Closed-input witness for `get_error_nil_value`: reading an absent
key errors and returns a nil value. -/
theorem get_error_nil_value_witness :
    (dbGet tagCodec [] [0]).2 ≠ none ∧ (dbGet tagCodec [] [0]).1 = none :=
  ⟨by decide, get_error_nil_value tagCodec [] [0] (by decide)⟩

/-- C4: `Has` on an absent key returns `(false, nil)` — the engine's
not-found is normalized, never surfaced as an error — and `Has` is true
exactly when a live entry exists for the key. -/
theorem has_absent_normalized (st : Store) (k : Bytes) :
    (storeGet st k = none → dbHas st k = (false, none)) ∧
    ((dbHas st k).1 = true ↔ storeGet st k ≠ none) ∧
    (dbHas st k).2 = none := by
  cases hg : storeGet st k with
  | none => simp [dbHas, hg]
  | some v => simp [dbHas, hg]

/-- Closed-input witness for `has_absent_normalized`. -/
theorem has_absent_normalized_witness :
    dbHas [([7], [8])] [0] = (false, none) :=
  (has_absent_normalized [([7], [8])] [0]).1 rfl

/-- C5: `Delete` on a store where the key is absent returns a nil error
(the engine's not-found is normalized to success, so `Delete` is
idempotent and in fact never errors in the model), and after `Delete(k)`
a subsequent `Has(k)` returns false. -/
theorem delete_idempotent_has_false (st : Store) (k : Bytes) :
    (storeGet st k = none → dbDelete st k = (st, none)) ∧
    (dbDelete st k).2 = none ∧
    dbHas (dbDelete st k).1 k = (false, none) := by
  cases hg : storeGet st k with
  | none => simp [dbDelete, txnDelete, hg, dbHas]
  | some v =>
    simp [dbDelete, txnDelete, hg, dbHas, storeGet_storeDelete_self]

/-- Closed-input witness for `delete_idempotent_has_false`: deleting an
absent key leaves the store unchanged and returns no error. -/
theorem delete_idempotent_has_false_witness :
    dbDelete [([7], [8])] [0] = ([([7], [8])], none) :=
  (delete_idempotent_has_false [([7], [8])] [0]).1 rfl

/-- C6: when `badgerBatch.Write` returns — whether the transaction
succeeded or failed — the batch's accumulator is empty and `ValueSize()`
is 0, so a failed `Write` cannot be retried without re-populating. -/
theorem batchWrite_clears_batch (C : Codec) (fail : Bytes → Bytes → Bool)
    (bt : BadgerBatch) (engine : Store) :
    (batchWrite C fail bt engine).2.1 = newBatch ∧
    (batchWrite C fail bt engine).2.1.b = [] ∧
    batchValueSize (batchWrite C fail bt engine).2.1 = 0 :=
  ⟨rfl, rfl, rfl⟩

theorem tableBatch_foldl_eq (pre : Bytes) (kvs : List (Bytes × Bytes))
    (b0 : BadgerBatch) :
    kvs.foldl (fun bt kv => tableBatchPut pre bt kv.1 kv.2) b0
      = (kvs.map (fun kv => (pre ++ kv.1, kv.2))).foldl
          (fun bt kv => batchPut bt kv.1 kv.2) b0 := by
  induction kvs generalizing b0 with
  | nil => rfl
  | cons hd tl ih =>
    rw [List.foldl_cons, List.map_cons, List.foldl_cons]
    exact ih _

/-- C3: every key-taking operation of a namespaced store with prefix `pre`
acting on key `k` is exactly the underlying operation on `pre ++ k`
(byte concatenation, no delimiter), and a batch obtained from the
namespaced store produces exactly the same physical keys — and the same
write — as prefixing the keys directly and using the raw store's batch. -/
theorem table_prefix_delegation (C : Codec) (fail : Bytes → Bytes → Bool)
    (pre : Bytes) (st : Store) (k v : Bytes) (kvs : List (Bytes × Bytes)) :
    tablePut C fail pre st k v = dbPut C fail st (pre ++ k) v ∧
    tableHas pre st k = dbHas st (pre ++ k) ∧
    tableGet C pre st k = dbGet C st (pre ++ k) ∧
    tableDelete pre st k = dbDelete st (pre ++ k) ∧
    tableBatchPut pre newBatch k v = batchPut newBatch (pre ++ k) v ∧
    tableBatchPuts pre kvs = rawBatchPuts (kvs.map (fun kv => (pre ++ kv.1, kv.2))) ∧
    tableBatchWrite C fail (tableBatchPuts pre kvs) st
      = batchWrite C fail (rawBatchPuts (kvs.map (fun kv => (pre ++ kv.1, kv.2)))) st := by
  refine ⟨rfl, rfl, rfl, rfl, rfl, ?_, ?_⟩
  · exact tableBatch_foldl_eq pre kvs newBatch
  · rw [tableBatchWrite, tableBatchPuts, rawBatchPuts, tableBatch_foldl_eq]

/-- C1 fails on the code: in `badgerBatch.Write` the transaction callback
runs `err = txn.Set(key, value)` in a loop without returning early, so a
mid-batch set failure is overwritten by a later successful set.  On a
two-entry batch whose first entry's set fails and whose second succeeds,
`Write` returns a nil error and commits the second key only — a partial
commit that the all-or-nothing contract forbids. -/
theorem batchWrite_midbatch_failure_masked :
    (batchWrite tagCodec (fun k _ => decide (k = [1]))
        ⟨[([1], [10]), ([2], [20])], 4⟩ []).2.2 = none ∧
    (batchWrite tagCodec (fun k _ => decide (k = [1]))
        ⟨[([1], [10]), ([2], [20])], 4⟩ []).1 = [([2], [0, 20])] := by
  decide

/-- C7: the first `Next` rewinds the iterator to position 0 — on a sorted
snapshot, the smallest key — and returns whether any entry exists; each
subsequent `Next` advances exactly one position; `Next` returns false
exactly when the position has run past the snapshot. -/
theorem iterator_next_spec (it : BadgerIterator) :
    (it.initialised = false →
      (iterNext it).2.pos = 0 ∧
      (iterNext it).2.initialised = true ∧
      ((iterNext it).1 = true ↔ it.entries ≠ []) ∧
      (∀ k v rest, SnapshotSorted it.entries → it.entries = (k, v) :: rest →
        iterKey (iterNext it).2 = some k ∧
        ∀ e ∈ it.entries, bytesLe k e.1 = true)) ∧
    (it.initialised = true →
      (iterNext it).2.pos = it.pos + 1 ∧
      ((iterNext it).1 = true ↔ it.pos + 1 < it.entries.length)) ∧
    ((iterNext it).1 = false ↔
      (iterNext it).2.entries.length ≤ (iterNext it).2.pos) := by
  refine ⟨?_, ?_, ?_⟩
  · intro hinit
    refine ⟨?_, ?_, ?_, ?_⟩
    · simp [iterNext, hinit]
    · simp [iterNext, hinit]
    · simp [iterNext, hinit, iterValid, List.length_pos]
    · intro k v rest hsort hent
      constructor
      · simp [iterNext, hinit, iterKey, hent]
      · intro e he
        rw [hent, List.mem_cons] at he
        rcases he with rfl | he
        · exact bytesLe_refl k
        · rw [SnapshotSorted, hent, List.pairwise_cons] at hsort
          exact hsort.1 e he
  · intro hinit
    constructor
    · simp [iterNext, hinit]
    · simp [iterNext, hinit, iterValid]
  · cases hinit : it.initialised with
    | false => simp [iterNext, hinit, iterValid, Nat.not_lt]
    | true => simp [iterNext, hinit, iterValid, Nat.not_lt]

/-- Closed-input witness for `iterator_next_spec`. -/
theorem iterator_next_spec_witness :
    (iterNext (newIterator [([1], [2])])).2.pos = 0 ∧
    iterKey (iterNext (newIterator [([1], [2])])).2 = some [1] ∧
    (iterNext (newIterator [([1], [2])])).1 = true := by
  have h := iterator_next_spec (newIterator [([1], [2])])
  exact ⟨(h.1 rfl).1,
    ((h.1 rfl).2.2.2 [1] [2] [] (by simp [SnapshotSorted, newIterator]) rfl).1,
    (h.1 rfl).2.2.1.mpr (by simp [newIterator])⟩

/-- C8: the cursor's `Value()` returns the raw engine bytes without
applying the value codec: after a successful `Put(k, v)`, the snapshot
entry for `k` yields `encode v` through the cursor, while `Get(k)` would
return the decoded `v`. -/
theorem iterator_value_raw (C : Codec) (fail : Bytes → Bytes → Bool)
    (st : Store) (k v : Bytes) (h : (dbPut C fail st k v).2 = none) :
    ∀ p entry,
      (newIterator (dbPut C fail st k v).1).entries.get? p = some entry →
      entry.1 = k →
      iterValue ⟨(newIterator (dbPut C fail st k v).1).entries, p, true, false⟩
        = some (C.encode v) ∧
      dbGet C (dbPut C fail st k v).1 k = (some v, none) := by
  intro p entry hget hk
  by_cases hf : fail k (C.encode v)
  · simp [dbPut, hf] at h
  · have hst : (dbPut C fail st k v).1 = storeSet st k (C.encode v) := by
      simp [dbPut, hf]
    have hmem : entry ∈ (newIterator (dbPut C fail st k v).1).entries :=
      List.get?_mem hget
    rw [newIterator] at hmem
    rw [hst] at hmem
    have hval : entry.2 = C.encode v :=
      value_eq_of_mem_storeSet st k (C.encode v) entry hmem hk
    refine ⟨?_, ?_⟩
    · rw [iterValue]
      simp only [newIterator] at hget ⊢
      rw [hget]
      simp [hval]
    · simp [hst, dbGet, storeGet_storeSet_self, C.roundtrip]

/-- Closed-input witness for `iterator_value_raw`: the cursor yields the
tagged (encoded) bytes `[0, 2]`, while `Get` returns the decoded `[2]`. -/
theorem iterator_value_raw_witness :
    iterValue ⟨(newIterator (dbPut tagCodec (fun _ _ => false) [] [1] [2]).1).entries,
        0, true, false⟩ = some [0, 2] ∧
    dbGet tagCodec (dbPut tagCodec (fun _ _ => false) [] [1] [2]).1 [1]
      = (some [2], none) := by
  have h := iterator_value_raw tagCodec (fun _ _ => false) [] [1] [2] rfl
    0 ([1], [0, 2]) rfl rfl
  exact ⟨h.1, h.2⟩

/-- C9: each reclaim cycle invokes purge-old-versions first and value-log
GC with discard ratio 0.5 second, skipping the GC call when the purge
fails; the loop interval constant is 10 minutes; and one tick of the loop
consumes any cycle error into a log entry instead of propagating it. -/
theorem gc_cycle_spec (purgeErr : Option Err) (gcErr : ℚ → Option Err) :
    (∀ e, purgeErr = some e →
      collectGarbage purgeErr gcErr = (some e, [.purgeOlderVersions])) ∧
    (purgeErr = none →
      collectGarbage purgeErr gcErr
        = (gcErr discardRatio, [.purgeOlderVersions, .runValueLogGC (1 / 2)])) ∧
    discardRatio = 1 / 2 ∧
    cgInterval = 10 * 60 * second ∧
    (runGCTick purgeErr gcErr).2 = (collectGarbage purgeErr gcErr).2 ∧
    (∀ e, (collectGarbage purgeErr gcErr).1 = some e ↔
      (runGCTick purgeErr gcErr).1 = .failed e) := by
  refine ⟨?_, ?_, rfl, ?_, rfl, ?_⟩
  · intro e he; rw [he]; rfl
  · intro he; rw [he, collectGarbage, discardRatio]
  · rw [cgInterval, minute]; ring
  · intro e
    cases purgeErr with
    | some e' =>
      constructor
      · intro h
        simp [collectGarbage] at h
        simp [runGCTick, collectGarbage, h]
      · intro h
        simp [runGCTick, collectGarbage] at h
        simp [collectGarbage, h]
    | none =>
      cases hg : gcErr discardRatio with
      | none => simp [runGCTick, collectGarbage, hg]
      | some e' => simp [runGCTick, collectGarbage, hg]

/-- Closed-input witness for `gc_cycle_spec`: a failing purge returns its
error with only the purge in the trace, and the tick logs the failure. -/
theorem gc_cycle_spec_witness :
    collectGarbage (some Err.engineFailure) (fun _ => none)
      = (some Err.engineFailure, [MaintOp.purgeOlderVersions]) ∧
    (runGCTick (some Err.engineFailure) (fun _ => none)).1
      = GCLog.failed Err.engineFailure := by
  have h := gc_cycle_spec (some Err.engineFailure) (fun _ => none)
  exact ⟨h.1 Err.engineFailure rfl, (h.2.2.2.2.2 Err.engineFailure).mp (by rw [h.1 Err.engineFailure rfl])⟩

end EthdbBadger
